import Mathlib

/-!
Shallow embedding of the retrieval engine of the `deep_research_app`
repository, together with theorems checking the natural-language
specification against it.

The embedding covers:
* `src/retrieval/hybrid_search.py` — `HybridSearcher.search`,
  `HybridSearcher._rrf_merge`, `HybridSearcher._get_source_info`;
* `src/retrieval/reranker.py` — `Reranker.rerank`,
  `RetrievalPipeline.retrieve`;
* `src/ingestion/embeddings.py` — `EmbeddingClient.embed`;
* `src/schemas/config.py` — `RetrievalConfig` (pydantic field bounds);
* `src/schemas/models.py` — `SearchResult`.

Modelling conventions: Python floats are modelled as `ℚ`, UUIDs as `ℕ`,
Python `dict` as an insertion-ordered association list (update-in-place
keeps position, new keys are appended), Python's stable
`sort(key=..., reverse=True)` as a stable descending insertion sort, and
external collaborators (the two datastore RPCs, the embedding provider,
the cross-encoder model) as explicit function parameters.
-/

namespace DeepResearch

/-- `Literal["vector", "keyword", "hybrid"]` from `src/schemas/models.py`
and `src/schemas/config.py`. -/
inductive SearchType where
  | vector
  | keyword
  | hybrid
deriving DecidableEq, Repr

/-- `SearchResult` pydantic model, `src/schemas/models.py` lines 135-148. -/
structure SearchResult where
  chunk_id : ℕ
  source_id : ℕ
  content : String
  contextual_prefix : Option String
  page_start : Option ℤ
  page_end : Option ℤ
  section_hint : Option String
  score : ℚ
  source_title : String
  source_uri : String
  search_type : SearchType
deriving DecidableEq, Repr

/-- `RetrievalConfig` pydantic model, `src/schemas/config.py` lines 91-158
(fields only; the per-field `ge`/`le` bounds are modelled by
`mkRetrievalConfig` below). -/
structure RetrievalConfig where
  search_type : SearchType
  vector_weight : ℚ
  keyword_weight : ℚ
  rrf_k : ℕ
  initial_top_k : ℕ
  final_top_k : ℕ
  use_reranking : Bool
  reranker_model : String
  use_query_expansion : Bool
  expansion_model : Option String
deriving DecidableEq, Repr

/-- The field defaults of `RetrievalConfig` (`src/schemas/config.py`). -/
def defaultRetrievalConfig : RetrievalConfig where
  search_type := .hybrid
  vector_weight := 6/10
  keyword_weight := 4/10
  rrf_k := 60
  initial_top_k := 50
  final_top_k := 10
  use_reranking := true
  reranker_model := "ms-marco-MiniLM-L-6-v2"
  use_query_expansion := false
  expansion_model := none

/-- Pydantic construction of `RetrievalConfig`: construction succeeds iff
every per-field `ge`/`le` bound of `src/schemas/config.py` lines 91-158
holds (`0 ≤ weight ≤ 1`, `1 ≤ rrf_k ≤ 100`, `1 ≤ initial_top_k ≤ 200`,
`1 ≤ final_top_k ≤ 50`).  There is no cross-field validator in the class
body (`validate_weights` is a plain method that pydantic never invokes). -/
def mkRetrievalConfig (st : SearchType) (vw kw : ℚ) (krrf itk ftk : ℕ)
    (ur : Bool) (rm : String) (uqe : Bool) (em : Option String) :
    Option RetrievalConfig :=
  if 0 ≤ vw ∧ vw ≤ 1 ∧ 0 ≤ kw ∧ kw ≤ 1 ∧ 1 ≤ krrf ∧ krrf ≤ 100 ∧
      1 ≤ itk ∧ itk ≤ 200 ∧ 1 ≤ ftk ∧ ftk ≤ 50 then
    some { search_type := st, vector_weight := vw, keyword_weight := kw,
           rrf_k := krrf, initial_top_k := itk, final_top_k := ftk,
           use_reranking := ur, reranker_model := rm,
           use_query_expansion := uqe, expansion_model := em }
  else none

/-! ### Python `dict` as an insertion-ordered association list -/

/-- `d[key]` lookup (`None` when absent). -/
def dictGet {α : Type} : List (ℕ × α) → ℕ → Option α
  | [], _ => none
  | (k, v) :: rest, key => if k = key then some v else dictGet rest key

/-- `d.get(key, dflt)`. -/
def dictGetD {α : Type} (d : List (ℕ × α)) (key : ℕ) (dflt : α) : α :=
  (dictGet d key).getD dflt

/-- `d[key] = v`: updating an existing key keeps its position, a new key
is appended — Python dicts preserve insertion order. -/
def dictSet {α : Type} : List (ℕ × α) → ℕ → α → List (ℕ × α)
  | [], key, v => [(key, v)]
  | (k, w) :: rest, key, v =>
    if k = key then (k, v) :: rest else (k, w) :: dictSet rest key v

/-- `key in d`. -/
def dictMem {α : Type} (d : List (ℕ × α)) (key : ℕ) : Bool :=
  (dictGet d key).isSome

/-- `d.keys()` in insertion order. -/
def dictKeys {α : Type} (d : List (ℕ × α)) : List ℕ :=
  d.map Prod.fst

/-! ### Python's stable descending sort -/

/-- Insert `a` before the first strictly-smaller key, after equal keys of
earlier elements — the insertion step of a stable descending sort. -/
def insertDescBy {α : Type} (key : α → ℚ) (a : α) : List α → List α
  | [] => [a]
  | b :: l => if key b ≤ key a then a :: b :: l else b :: insertDescBy key a l

/-- Stable descending insertion sort; agrees with Python's stable
`sorted(..., key=key, reverse=True)`. -/
def sortDescBy {α : Type} (key : α → ℚ) : List α → List α
  | [] => []
  | a :: l => insertDescBy key a (sortDescBy key l)

/-! ### `HybridSearcher._rrf_merge` (`src/retrieval/hybrid_search.py` 203-272) -/

/-- The first loop of `_rrf_merge` (lines 232-236): walk the vector
results with 0-based `rank`, add `weight * (1.0 / (k + rank + 1))` to the
score of the chunk, and store the record in `result_map`
(unconditionally, so a later duplicate overwrites). -/
def vectorPass (w kq : ℚ) :
    List SearchResult → ℕ → List (ℕ × ℚ) → List (ℕ × SearchResult) →
    List (ℕ × ℚ) × List (ℕ × SearchResult)
  | [], _, scores, rmap => (scores, rmap)
  | r :: rest, rank, scores, rmap =>
    let rrf := w * (1 / (kq + (rank : ℚ) + 1))
    vectorPass w kq rest (rank + 1)
      (dictSet scores r.chunk_id (dictGetD scores r.chunk_id 0 + rrf))
      (dictSet rmap r.chunk_id r)

/-- The second loop of `_rrf_merge` (lines 239-246): same scoring over the
keyword results, but `result_map` is only written when the chunk is not
already present (the vector record is kept). -/
def keywordPass (w kq : ℚ) :
    List SearchResult → ℕ → List (ℕ × ℚ) → List (ℕ × SearchResult) →
    List (ℕ × ℚ) × List (ℕ × SearchResult)
  | [], _, scores, rmap => (scores, rmap)
  | r :: rest, rank, scores, rmap =>
    let rrf := w * (1 / (kq + (rank : ℚ) + 1))
    keywordPass w kq rest (rank + 1)
      (dictSet scores r.chunk_id (dictGetD scores r.chunk_id 0 + rrf))
      (if dictMem rmap r.chunk_id then rmap else dictSet rmap r.chunk_id r)

/-- The `scores` / `result_map` dictionaries of `_rrf_merge` after both
loops, starting from empty dictionaries. -/
def rrfState (cfg : RetrievalConfig)
    (vector_results keyword_results : List SearchResult) :
    List (ℕ × ℚ) × List (ℕ × SearchResult) :=
  let st := vectorPass cfg.vector_weight (cfg.rrf_k : ℚ) vector_results 0 [] []
  keywordPass cfg.keyword_weight (cfg.rrf_k : ℚ) keyword_results 0 st.1 st.2

/-- The fused RRF score `_rrf_merge` assigns to a chunk id (0 when the id
occurs in neither list). -/
def rrfScore (cfg : RetrievalConfig)
    (vector_results keyword_results : List SearchResult) (id : ℕ) : ℚ :=
  dictGetD (rrfState cfg vector_results keyword_results).1 id 0

/-- `HybridSearcher._rrf_merge` (lines 226-272): score both lists, sort
the chunk ids by descending fused score (Python's stable sort), truncate
to `top_k`, and rebuild each kept record from `result_map` with the fused
score and `search_type="hybrid"`. -/
def rrf_merge (cfg : RetrievalConfig)
    (vector_results keyword_results : List SearchResult) (top_k : ℕ) :
    List SearchResult :=
  let st := rrfState cfg vector_results keyword_results
  let sorted_ids := sortDescBy (fun id => dictGetD st.1 id 0) (dictKeys st.1)
  (sorted_ids.take top_k).filterMap fun id =>
    (dictGet st.2 id).map fun r =>
      { r with score := dictGetD st.1 id 0, search_type := SearchType.hybrid }

/-- The total RRF contribution a single list gives to chunk `id` when the
walk starts at 0-based position `rank`: `w * (1/(kq + rank + 1))` at every
position holding `id`.  Specification-level restatement of the loop
arithmetic of `_rrf_merge`, used to relate `rrfScore` to rank formulas. -/
def contrib (w kq : ℚ) (id : ℕ) : List SearchResult → ℕ → ℚ
  | [], _ => 0
  | r :: rest, rank =>
    (if r.chunk_id = id then w * (1 / (kq + (rank : ℚ) + 1)) else 0) +
      contrib w kq id rest (rank + 1)

/-! ### `Reranker.rerank`, `HybridSearcher.search`, `RetrievalPipeline.retrieve` -/

/-- Python's `x or dflt` for an optional int argument: `None` and `0` are
falsy and fall back to the default. -/
def truthyOr (v : Option ℕ) (dflt : ℕ) : ℕ :=
  match v with
  | none => dflt
  | some 0 => dflt
  | some (k + 1) => k + 1

/-- `Reranker.rerank` (`src/retrieval/reranker.py` lines 58-110).  The
cross-encoder is the function parameter `model`: `model query content` is
the score `CrossEncoder.predict` returns for the pair `(query, content)`.
Empty input returns `[]` before the model is consulted; otherwise every
`(query, result.content)` pair is scored, the pairs are sorted by
descending score (Python's stable sort), the first `top_k` are kept, and
each kept record is rebuilt with its model score. -/
def rerank (cfg : RetrievalConfig) (model : String → String → ℚ)
    (query : String) (results : List SearchResult) (top_k : Option ℕ) :
    List SearchResult :=
  if results = [] then []
  else
    let tk := truthyOr top_k cfg.final_top_k
    let scored := results.map fun r => (r, model query r.content)
    let sortedScored := sortDescBy Prod.snd scored
    (sortedScored.take tk).map fun p => { p.1 with score := p.2 }

/-- `HybridSearcher.search` (`src/retrieval/hybrid_search.py` lines
52-92).  The two candidate sources are the function parameters
`vecSearch` / `kwSearch` (argument = the `top_k` the RPC is issued with).
`vector` / `keyword` mode runs only that source at the resolved `top_k`;
`hybrid` mode runs both at `config.initial_top_k` and fuses. -/
def search (cfg : RetrievalConfig) (vecSearch kwSearch : ℕ → List SearchResult)
    (top_k : Option ℕ) : List SearchResult :=
  let tk := truthyOr top_k cfg.final_top_k
  match cfg.search_type with
  | .vector => vecSearch tk
  | .keyword => kwSearch tk
  | .hybrid => rrf_merge cfg (vecSearch cfg.initial_top_k) (kwSearch cfg.initial_top_k) tk

/-- `RetrievalPipeline.retrieve` (`src/retrieval/reranker.py` lines
173-223): search at `initial_top_k` when reranking is enabled (else at the
resolved `top_k`), return `[]` on no candidates, then either rerank to
`top_k` or truncate. -/
def retrieve (cfg : RetrievalConfig)
    (vecSearch kwSearch : ℕ → List SearchResult)
    (model : String → String → ℚ) (query : String) (top_k : Option ℕ) :
    List SearchResult :=
  let tk := truthyOr top_k cfg.final_top_k
  let initial :=
    if cfg.use_reranking then search cfg vecSearch kwSearch (some cfg.initial_top_k)
    else search cfg vecSearch kwSearch (some tk)
  if initial = [] then []
  else if cfg.use_reranking then rerank cfg model query initial (some tk)
  else initial.take tk

/-! ### `EmbeddingClient.embed` (`src/ingestion/embeddings.py` 53-118) -/

/-- Outcome of one `openai.embeddings.create` attempt. -/
inductive EmbedOutcome where
  | success (embeddings : List (List ℚ))
  | rateLimitError
  | genericError
deriving DecidableEq, Repr

/-- `max_retries = 3` (line 66). -/
def maxRetries : ℕ := 3

/-- `EmbeddingClient._fallback_embeddings` (lines 115-118): one 1536-long
zero vector per input text. -/
def fallbackEmbeddings (texts : List String) : List (List ℚ) :=
  texts.map (fun _ => List.replicate 1536 0)

/-- The `for retry in range(max_retries)` loop of `embed` (lines 69-100).
`outcomes retry` is what the provider does on attempt `retry`; the second
component of the result collects the `asyncio.sleep` backoff delays
(`retry_delay` starts at 1.0 and doubles after each sleep).  A
`RateLimitError` on the last attempt re-raises (`.error`), while a generic
error on the last attempt degrades to the zero-vector fallback. -/
def embedLoop (texts : List String) (outcomes : ℕ → EmbedOutcome) :
    ℕ → ℕ → ℚ → Except Unit (List (List ℚ)) × List ℚ
  | 0, _, _ => (.ok (fallbackEmbeddings texts), [])
  | fuel + 1, retry, delay =>
    match outcomes retry with
    | .success es => (.ok es, [])
    | .rateLimitError =>
      if retry < maxRetries - 1 then
        let rec_result := embedLoop texts outcomes fuel (retry + 1) (delay * 2)
        (rec_result.1, delay :: rec_result.2)
      else (.error (), [])
    | .genericError =>
      if retry < maxRetries - 1 then
        let rec_result := embedLoop texts outcomes fuel (retry + 1) (delay * 2)
        (rec_result.1, delay :: rec_result.2)
      else (.ok (fallbackEmbeddings texts), [])

/-- `EmbeddingClient.embed` (lines 53-100): empty input returns `[]`
without any provider attempt; otherwise run up to `max_retries` attempts
with initial delay 1.0. -/
def embed (texts : List String) (outcomes : ℕ → EmbedOutcome) :
    Except Unit (List (List ℚ)) × List ℚ :=
  if texts = [] then (.ok [], [])
  else embedLoop texts outcomes maxRetries 0 1

/-! ### `HybridSearcher._get_source_info` (`src/retrieval/hybrid_search.py` 274-299) -/

/-- A row of the `sources` table (`title`, `uri`). -/
structure SourceInfo where
  title : String
  uri : String
deriving DecidableEq, Repr

/-- `HybridSearcher._get_source_info`: consult the cache, else query the
`sources` table (the parameter `table`, returning the matching rows); a
found row is cached, a missing row yields the sentinel
`{"title": "Unknown", "uri": ""}` without an error and without writing
the cache.  Returns the info together with the updated cache. -/
def get_source_info (table : ℕ → List SourceInfo)
    (cache : List (ℕ × SourceInfo)) (source_id : ℕ) :
    SourceInfo × List (ℕ × SourceInfo) :=
  match dictGet cache source_id with
  | some info => (info, cache)
  | none =>
    match table source_id with
    | info :: _ => (info, dictSet cache source_id info)
    | [] => ({ title := "Unknown", uri := "" }, cache)

/-! ### Concrete fixtures for witnesses, counterexamples and scenarios -/

/-- A minimal `SearchResult` record. -/
def mkResult (cid : ℕ) (text : String) (sc : ℚ) (st : SearchType) : SearchResult where
  chunk_id := cid
  source_id := cid
  content := text
  contextual_prefix := none
  page_start := none
  page_end := none
  section_hint := none
  score := sc
  source_title := "t"
  source_uri := "u"
  search_type := st

/-- Scenario record A: similarity 0.9 in the vector list. -/
def resA : SearchResult := mkResult 1 "A" (9/10) .vector

/-- Scenario record B as the vector list returns it (similarity 0.8). -/
def resBv : SearchResult := mkResult 2 "B" (8/10) .vector

/-- Scenario record B as the keyword list returns it (rank score 5). -/
def resBk : SearchResult := mkResult 2 "B" 5 .keyword

/-- Scenario record C: rank score 3 in the keyword list. -/
def resC : SearchResult := mkResult 3 "C" 3 .keyword

/-- A configuration with weight pair `(1, 0)` — admissible field values
(each in `[0, 1]`, summing to 1). -/
def cfgZeroKw : RetrievalConfig :=
  { defaultRetrievalConfig with vector_weight := 1, keyword_weight := 0 }

/-- The default configuration with reranking disabled. -/
def cfgNoRerank : RetrievalConfig :=
  { defaultRetrievalConfig with use_reranking := false }

/-- A vector source that has candidates only when fetched at depth 50
(= `initial_top_k`), distinguishing the fetch depth observationally. -/
def vecProbe : ℕ → List SearchResult :=
  fun n => if n = 50 then [resA] else []

/-- A keyword source returning nothing. -/
def kwProbe : ℕ → List SearchResult := fun _ => []

/-- A provider that fails every attempt with a generic error. -/
def allGeneric : ℕ → EmbedOutcome := fun _ => .genericError

/-- A provider that fails every attempt with a rate-limit error. -/
def allRateLimit : ℕ → EmbedOutcome := fun _ => .rateLimitError

/-- A cross-encoder stub scoring a pair by the length of the candidate
text. -/
def lenModel : String → String → ℚ := fun _ content => (content.length : ℚ)

/-- The default configuration switched to vector-only search. -/
def cfgVec : RetrievalConfig :=
  { defaultRetrievalConfig with search_type := .vector }

/-- The default configuration switched to keyword-only search. -/
def cfgKw : RetrievalConfig :=
  { defaultRetrievalConfig with search_type := .keyword }

/-- The fused record for B in the spec scenario: the vector-list record,
fused score `0.6/62 + 0.4/61`, provenance `hybrid`. -/
def resBfused : SearchResult :=
  { resBv with score := 307/18910, search_type := SearchType.hybrid }

/-- The record `Reranker.rerank` emits for `resA` under `lenModel`. -/
def resAreranked : SearchResult := { resA with score := 1 }

/-- The fused record for A in the spec scenario (score `0.6/61`). -/
def resAfused : SearchResult :=
  { resA with score := 3/305, search_type := SearchType.hybrid }

/-- The fused record for C in the spec scenario (score `0.4/62`). -/
def resCfused : SearchResult :=
  { resC with score := 1/155, search_type := SearchType.hybrid }

/-! ## Helper lemmas: dictionaries -/

theorem dictGet_set_self {α : Type} (d : List (ℕ × α)) (k : ℕ) (v : α) :
    dictGet (dictSet d k v) k = some v := by
  induction d with
  | nil => simp [dictSet, dictGet]
  | cons p rest ih =>
    obtain ⟨k', v'⟩ := p
    by_cases h : k' = k
    · subst h
      simp [dictSet, dictGet]
    · simp [dictSet, dictGet, h, ih]

theorem dictGet_set_ne {α : Type} (d : List (ℕ × α)) (k key : ℕ) (v : α)
    (h : k ≠ key) : dictGet (dictSet d k v) key = dictGet d key := by
  induction d with
  | nil => simp [dictSet, dictGet, h]
  | cons p rest ih =>
    obtain ⟨k', v'⟩ := p
    by_cases hk : k' = k
    · subst hk
      simp [dictSet, dictGet, h]
    · simp only [dictSet, if_neg hk]
      by_cases hkey : k' = key
      · simp [dictGet, hkey]
      · simp [dictGet, hkey, ih]

theorem dictGetD_set_self {α : Type} (d : List (ℕ × α)) (k : ℕ) (v dflt : α) :
    dictGetD (dictSet d k v) k dflt = v := by
  unfold dictGetD
  rw [dictGet_set_self]
  rfl

theorem dictGetD_set_ne {α : Type} (d : List (ℕ × α)) (k key : ℕ) (v dflt : α)
    (h : k ≠ key) : dictGetD (dictSet d k v) key dflt = dictGetD d key dflt := by
  unfold dictGetD
  rw [dictGet_set_ne _ _ _ _ h]

theorem mem_dictKeys_iff_isSome {α : Type} (d : List (ℕ × α)) (k : ℕ) :
    k ∈ dictKeys d ↔ (dictGet d k).isSome = true := by
  induction d with
  | nil => simp [dictKeys, dictGet]
  | cons p rest ih =>
    obtain ⟨k', v'⟩ := p
    simp only [dictKeys, List.map_cons, List.mem_cons, dictGet] at ih ⊢
    by_cases h : k' = k
    · subst h
      simp
    · simp [h, Ne.symm h, ih]

theorem mem_dictKeys_set {α : Type} (d : List (ℕ × α)) (k : ℕ) (v : α) (x : ℕ) :
    x ∈ dictKeys (dictSet d k v) ↔ x = k ∨ x ∈ dictKeys d := by
  induction d with
  | nil => simp [dictSet, dictKeys]
  | cons p rest ih =>
    obtain ⟨k', v'⟩ := p
    by_cases h : k' = k
    · subst h
      simp [dictSet, dictKeys]
    · simp only [dictSet, if_neg h]
      simp only [dictKeys, List.map_cons, List.mem_cons] at ih ⊢
      tauto

theorem nodup_dictKeys_set {α : Type} (d : List (ℕ × α)) (k : ℕ) (v : α)
    (h : (dictKeys d).Nodup) : (dictKeys (dictSet d k v)).Nodup := by
  induction d with
  | nil => simp [dictSet, dictKeys]
  | cons p rest ih =>
    obtain ⟨k', v'⟩ := p
    simp only [dictKeys, List.map_cons, List.nodup_cons] at h
    by_cases hk : k' = k
    · subst hk
      have hred : dictSet ((k', v') :: rest) k' v = (k', v) :: rest := by
        simp [dictSet]
      rw [hred]
      simp only [dictKeys, List.map_cons, List.nodup_cons]
      exact ⟨h.1, h.2⟩
    · simp only [dictSet, if_neg hk]
      simp only [dictKeys, List.map_cons, List.nodup_cons]
      constructor
      · intro hmem
        rcases (mem_dictKeys_set rest k v k').mp hmem with rfl|hmem'
        · exact hk rfl
        · exact h.1 hmem'
      · exact ih h.2

theorem dictMem_set {α : Type} (d : List (ℕ × α)) (k : ℕ) (v : α) (x : ℕ) :
    dictMem (dictSet d k v) x = true ↔ x = k ∨ dictMem d x = true := by
  unfold dictMem
  by_cases h : k = x
  · subst h
    rw [dictGet_set_self]
    simp
  · rw [dictGet_set_ne _ _ _ _ h]
    simp [Ne.symm h]

/-! ## Helper lemmas: the stable descending sort -/

theorem insertDescBy_perm {α : Type} (key : α → ℚ) (a : α) (l : List α) :
    List.Perm (insertDescBy key a l) (a :: l) := by
  induction l with
  | nil => exact List.Perm.refl _
  | cons b t ih =>
    by_cases h : key b ≤ key a
    · simp only [insertDescBy, if_pos h]
      exact List.Perm.refl _
    · simp only [insertDescBy, if_neg h]
      exact (ih.cons b).trans (List.Perm.swap a b t)

theorem sortDescBy_perm {α : Type} (key : α → ℚ) (l : List α) :
    List.Perm (sortDescBy key l) l := by
  induction l with
  | nil => exact List.Perm.refl _
  | cons a t ih =>
    exact (insertDescBy_perm key a (sortDescBy key t)).trans (ih.cons a)

theorem mem_insertDescBy {α : Type} (key : α → ℚ) (a : α) (l : List α) (x : α) :
    x ∈ insertDescBy key a l ↔ x = a ∨ x ∈ l := by
  rw [(insertDescBy_perm key a l).mem_iff]
  simp

theorem pairwise_insertDescBy {α : Type} (key : α → ℚ) (a : α) (l : List α)
    (h : l.Pairwise (fun x y => key y ≤ key x)) :
    (insertDescBy key a l).Pairwise (fun x y => key y ≤ key x) := by
  induction l with
  | nil => simp [insertDescBy]
  | cons b t ih =>
    rw [List.pairwise_cons] at h
    by_cases hc : key b ≤ key a
    · simp only [insertDescBy, if_pos hc]
      refine List.pairwise_cons.mpr ⟨?_, List.pairwise_cons.mpr ⟨h.1, h.2⟩⟩
      intro x hx
      rcases List.mem_cons.mp hx with rfl|hx'
      · exact hc
      · exact le_trans (h.1 x hx') hc
    · simp only [insertDescBy, if_neg hc]
      refine List.pairwise_cons.mpr ⟨?_, ih h.2⟩
      intro x hx
      rcases (mem_insertDescBy key a t x).mp hx with rfl|hx'
      · exact le_of_lt (not_le.mp hc)
      · exact h.1 x hx'

theorem sortDescBy_pairwise {α : Type} (key : α → ℚ) (l : List α) :
    (sortDescBy key l).Pairwise (fun x y => key y ≤ key x) := by
  induction l with
  | nil => simp [sortDescBy]
  | cons a t ih => exact pairwise_insertDescBy key a _ ih

/-! ## Helper lemmas: lists -/

theorem length_filterMap_of_isSome {α β : Type} (f : α → Option β) (l : List α)
    (h : ∀ x ∈ l, (f x).isSome = true) : (l.filterMap f).length = l.length := by
  induction l with
  | nil => rfl
  | cons a t ih =>
    have ha := h a (List.mem_cons_self a t)
    obtain ⟨b, hb⟩ := Option.isSome_iff_exists.mp ha
    rw [List.filterMap_cons, hb]
    simp [ih (fun x hx => h x (List.mem_cons_of_mem a hx))]

theorem pairwise_filterMap_of {α β : Type} (f : α → Option β)
    (R : α → α → Prop) (S : β → β → Prop) (l : List α) (h : l.Pairwise R)
    (hf : ∀ a b x y, R a b → f a = some x → f b = some y → S x y) :
    (l.filterMap f).Pairwise S := by
  induction h with
  | nil => simp
  | @cons a t ha hp ih =>
    rw [List.filterMap_cons]
    cases hfa : f a with
    | none => exact ih
    | some x =>
      refine List.pairwise_cons.mpr ⟨?_, ih⟩
      intro y hy
      obtain ⟨b, hb, hby⟩ := List.mem_filterMap.mp hy
      exact hf a b x y (ha b hb) hfa hby

/-! ## Helper lemmas: RRF contributions -/

theorem contrib_of_not_mem (w kq : ℚ) (id : ℕ) (l : List SearchResult) (n : ℕ)
    (h : id ∉ l.map SearchResult.chunk_id) : contrib w kq id l n = 0 := by
  induction l generalizing n with
  | nil => rfl
  | cons r t ih =>
    simp only [List.map_cons, List.mem_cons] at h
    push_neg at h
    rw [contrib, if_neg (fun hh => h.1 hh.symm), ih _ h.2, zero_add]

theorem contrib_append (w kq : ℚ) (id : ℕ) (l₁ l₂ : List SearchResult) (n : ℕ) :
    contrib w kq id (l₁ ++ l₂) n =
      contrib w kq id l₁ n + contrib w kq id l₂ (n + l₁.length) := by
  induction l₁ generalizing n with
  | nil => simp [contrib]
  | cons r t ih =>
    have hstep : contrib w kq id ((r :: t) ++ l₂) n =
        (if r.chunk_id = id then w * (1 / (kq + (n : ℚ) + 1)) else 0) +
          contrib w kq id (t ++ l₂) (n + 1) := rfl
    have hstep2 : contrib w kq id (r :: t) n =
        (if r.chunk_id = id then w * (1 / (kq + (n : ℚ) + 1)) else 0) +
          contrib w kq id t (n + 1) := rfl
    rw [hstep, hstep2, ih (n + 1), List.length_cons]
    have harg : n + 1 + t.length = n + (t.length + 1) := by omega
    rw [harg]
    ring

theorem vectorPass_scores_get (w kq : ℚ) (l : List SearchResult) (rank : ℕ)
    (s : List (ℕ × ℚ)) (m : List (ℕ × SearchResult)) (id : ℕ) :
    dictGetD (vectorPass w kq l rank s m).1 id 0 =
      dictGetD s id 0 + contrib w kq id l rank := by
  induction l generalizing rank s m with
  | nil => simp [vectorPass, contrib]
  | cons r t ih =>
    simp only [vectorPass, contrib]
    rw [ih]
    by_cases h : r.chunk_id = id
    · subst h
      rw [dictGetD_set_self, if_pos rfl]
      ring
    · rw [dictGetD_set_ne _ _ _ _ _ h, if_neg h]
      ring

theorem keywordPass_scores_get (w kq : ℚ) (l : List SearchResult) (rank : ℕ)
    (s : List (ℕ × ℚ)) (m : List (ℕ × SearchResult)) (id : ℕ) :
    dictGetD (keywordPass w kq l rank s m).1 id 0 =
      dictGetD s id 0 + contrib w kq id l rank := by
  induction l generalizing rank s m with
  | nil => simp [keywordPass, contrib]
  | cons r t ih =>
    simp only [keywordPass, contrib]
    rw [ih]
    by_cases h : r.chunk_id = id
    · subst h
      rw [dictGetD_set_self, if_pos rfl]
      ring
    · rw [dictGetD_set_ne _ _ _ _ _ h, if_neg h]
      ring

theorem rrfScore_eq (cfg : RetrievalConfig) (v kl : List SearchResult) (id : ℕ) :
    rrfScore cfg v kl id =
      contrib cfg.vector_weight (cfg.rrf_k : ℚ) id v 0 +
        contrib cfg.keyword_weight (cfg.rrf_k : ℚ) id kl 0 := by
  unfold rrfScore rrfState
  rw [keywordPass_scores_get, vectorPass_scores_get]
  simp [dictGetD, dictGet]

/-! ## Helper lemmas: keys and record map of the two fusion loops -/

theorem vectorPass_keys_mem (w kq : ℚ) (l : List SearchResult) (rank : ℕ)
    (s : List (ℕ × ℚ)) (m : List (ℕ × SearchResult)) (x : ℕ) :
    x ∈ dictKeys (vectorPass w kq l rank s m).1 ↔
      x ∈ l.map SearchResult.chunk_id ∨ x ∈ dictKeys s := by
  induction l generalizing rank s m with
  | nil => simp [vectorPass]
  | cons r t ih =>
    simp only [vectorPass, List.map_cons, List.mem_cons]
    rw [ih, mem_dictKeys_set]
    tauto

theorem keywordPass_keys_mem (w kq : ℚ) (l : List SearchResult) (rank : ℕ)
    (s : List (ℕ × ℚ)) (m : List (ℕ × SearchResult)) (x : ℕ) :
    x ∈ dictKeys (keywordPass w kq l rank s m).1 ↔
      x ∈ l.map SearchResult.chunk_id ∨ x ∈ dictKeys s := by
  induction l generalizing rank s m with
  | nil => simp [keywordPass]
  | cons r t ih =>
    simp only [keywordPass, List.map_cons, List.mem_cons]
    rw [ih, mem_dictKeys_set]
    tauto

theorem vectorPass_keys_nodup (w kq : ℚ) (l : List SearchResult) (rank : ℕ)
    (s : List (ℕ × ℚ)) (m : List (ℕ × SearchResult))
    (h : (dictKeys s).Nodup) : (dictKeys (vectorPass w kq l rank s m).1).Nodup := by
  induction l generalizing rank s m with
  | nil => exact h
  | cons r t ih => exact ih _ _ _ (nodup_dictKeys_set _ _ _ h)

theorem keywordPass_keys_nodup (w kq : ℚ) (l : List SearchResult) (rank : ℕ)
    (s : List (ℕ × ℚ)) (m : List (ℕ × SearchResult))
    (h : (dictKeys s).Nodup) : (dictKeys (keywordPass w kq l rank s m).1).Nodup := by
  induction l generalizing rank s m with
  | nil => exact h
  | cons r t ih => exact ih _ _ _ (nodup_dictKeys_set _ _ _ h)

theorem vectorPass_scores_in_rmap (w kq : ℚ) (l : List SearchResult) (rank : ℕ)
    (s : List (ℕ × ℚ)) (m : List (ℕ × SearchResult))
    (h : ∀ x, x ∈ dictKeys s → dictMem m x = true) :
    ∀ x, x ∈ dictKeys (vectorPass w kq l rank s m).1 →
      dictMem (vectorPass w kq l rank s m).2 x = true := by
  induction l generalizing rank s m with
  | nil => exact h
  | cons r t ih =>
    simp only [vectorPass]
    apply ih
    intro x hx
    rcases (mem_dictKeys_set s r.chunk_id _ x).mp hx with rfl|hx'
    · exact (dictMem_set m _ r _).mpr (Or.inl rfl)
    · exact (dictMem_set m r.chunk_id r x).mpr (Or.inr (h x hx'))

theorem keywordPass_scores_in_rmap (w kq : ℚ) (l : List SearchResult) (rank : ℕ)
    (s : List (ℕ × ℚ)) (m : List (ℕ × SearchResult))
    (h : ∀ x, x ∈ dictKeys s → dictMem m x = true) :
    ∀ x, x ∈ dictKeys (keywordPass w kq l rank s m).1 →
      dictMem (keywordPass w kq l rank s m).2 x = true := by
  induction l generalizing rank s m with
  | nil => exact h
  | cons r t ih =>
    simp only [keywordPass]
    apply ih
    intro x hx
    by_cases hm : dictMem m r.chunk_id
    · rw [if_pos hm]
      rcases (mem_dictKeys_set s r.chunk_id _ x).mp hx with rfl|hx'
      · exact hm
      · exact h x hx'
    · rw [if_neg hm]
      rcases (mem_dictKeys_set s r.chunk_id _ x).mp hx with rfl|hx'
      · exact (dictMem_set m _ r _).mpr (Or.inl rfl)
      · exact (dictMem_set m r.chunk_id r x).mpr (Or.inr (h x hx'))

theorem rrfState_keys_mem (cfg : RetrievalConfig) (v kl : List SearchResult) (x : ℕ) :
    x ∈ dictKeys (rrfState cfg v kl).1 ↔
      x ∈ v.map SearchResult.chunk_id ∨ x ∈ kl.map SearchResult.chunk_id := by
  unfold rrfState
  rw [keywordPass_keys_mem, vectorPass_keys_mem]
  have hnil : x ∈ dictKeys ([] : List (ℕ × ℚ)) ↔ False := by simp [dictKeys]
  rw [hnil]
  tauto

theorem rrfState_keys_nodup (cfg : RetrievalConfig) (v kl : List SearchResult) :
    (dictKeys (rrfState cfg v kl).1).Nodup := by
  unfold rrfState
  apply keywordPass_keys_nodup
  apply vectorPass_keys_nodup
  simp [dictKeys]

theorem rrfState_scores_in_rmap (cfg : RetrievalConfig) (v kl : List SearchResult)
    (x : ℕ) (hx : x ∈ dictKeys (rrfState cfg v kl).1) :
    dictMem (rrfState cfg v kl).2 x = true := by
  unfold rrfState at hx ⊢
  refine keywordPass_scores_in_rmap _ _ _ _ _ _ ?_ x hx
  apply vectorPass_scores_in_rmap
  intro y hy
  simp [dictKeys] at hy

theorem vectorPass_rmap_get_not_mem (w kq : ℚ) (l : List SearchResult) (rank : ℕ)
    (s : List (ℕ × ℚ)) (m : List (ℕ × SearchResult)) (id : ℕ)
    (h : id ∉ l.map SearchResult.chunk_id) :
    dictGet (vectorPass w kq l rank s m).2 id = dictGet m id := by
  induction l generalizing rank s m with
  | nil => rfl
  | cons r t ih =>
    simp only [List.map_cons, List.mem_cons] at h
    push_neg at h
    simp only [vectorPass]
    rw [ih _ _ _ h.2, dictGet_set_ne _ _ _ _ (fun hh => h.1 hh.symm)]

theorem vectorPass_rmap_get_nodup (w kq : ℚ) (l : List SearchResult) (rank : ℕ)
    (s : List (ℕ × ℚ)) (m : List (ℕ × SearchResult)) (rv : SearchResult) (id : ℕ)
    (hnd : (l.map SearchResult.chunk_id).Nodup) (hrv : rv ∈ l)
    (hid : rv.chunk_id = id) :
    dictGet (vectorPass w kq l rank s m).2 id = some rv := by
  induction l generalizing rank s m with
  | nil => cases hrv
  | cons r t ih =>
    simp only [List.map_cons, List.nodup_cons] at hnd
    rcases List.mem_cons.mp hrv with rfl|hrv'
    · have hni : id ∉ t.map SearchResult.chunk_id := by
        rw [← hid]
        exact hnd.1
      simp only [vectorPass]
      rw [vectorPass_rmap_get_not_mem _ _ _ _ _ _ _ hni, ← hid,
        dictGet_set_self]
    · simp only [vectorPass]
      exact ih _ _ _ hnd.2 hrv'

theorem keywordPass_rmap_get_of_isSome (w kq : ℚ) (l : List SearchResult)
    (rank : ℕ) (s : List (ℕ × ℚ)) (m : List (ℕ × SearchResult)) (id : ℕ)
    (h : (dictGet m id).isSome = true) :
    dictGet (keywordPass w kq l rank s m).2 id = dictGet m id := by
  induction l generalizing rank s m with
  | nil => rfl
  | cons r t ih =>
    simp only [keywordPass]
    by_cases hm : dictMem m r.chunk_id
    · rw [if_pos hm]
      exact ih _ _ _ h
    · rw [if_neg hm]
      have hne : r.chunk_id ≠ id := by
        intro hh
        apply hm
        rw [hh]
        exact h
      have hset : dictGet (dictSet m r.chunk_id r) id = dictGet m id :=
        dictGet_set_ne _ _ _ _ hne
      rw [ih _ _ _ (by rw [hset]; exact h), hset]

theorem vectorPass_rmap_key (w kq : ℚ) (l : List SearchResult) (rank : ℕ)
    (s : List (ℕ × ℚ)) (m : List (ℕ × SearchResult))
    (h : ∀ id rv, dictGet m id = some rv → rv.chunk_id = id) :
    ∀ id rv, dictGet (vectorPass w kq l rank s m).2 id = some rv →
      rv.chunk_id = id := by
  induction l generalizing rank s m with
  | nil => exact h
  | cons r t ih =>
    simp only [vectorPass]
    apply ih
    intro id rv hget
    by_cases hc : r.chunk_id = id
    · subst hc
      rw [dictGet_set_self] at hget
      cases hget
      rfl
    · rw [dictGet_set_ne _ _ _ _ hc] at hget
      exact h id rv hget

theorem keywordPass_rmap_key (w kq : ℚ) (l : List SearchResult) (rank : ℕ)
    (s : List (ℕ × ℚ)) (m : List (ℕ × SearchResult))
    (h : ∀ id rv, dictGet m id = some rv → rv.chunk_id = id) :
    ∀ id rv, dictGet (keywordPass w kq l rank s m).2 id = some rv →
      rv.chunk_id = id := by
  induction l generalizing rank s m with
  | nil => exact h
  | cons r t ih =>
    simp only [keywordPass]
    apply ih
    intro id rv hget
    by_cases hm : dictMem m r.chunk_id
    · rw [if_pos hm] at hget
      exact h id rv hget
    · rw [if_neg hm] at hget
      by_cases hc : r.chunk_id = id
      · subst hc
        rw [dictGet_set_self] at hget
        cases hget
        rfl
      · rw [dictGet_set_ne _ _ _ _ hc] at hget
        exact h id rv hget

theorem rrfState_rmap_key (cfg : RetrievalConfig) (v kl : List SearchResult) :
    ∀ id rv, dictGet (rrfState cfg v kl).2 id = some rv → rv.chunk_id = id := by
  unfold rrfState
  apply keywordPass_rmap_key
  apply vectorPass_rmap_key
  intro id rv hget
  cases hget

theorem rrfState_rmap_get_vector (cfg : RetrievalConfig) (v kl : List SearchResult)
    (rv : SearchResult) (id : ℕ) (hnd : (v.map SearchResult.chunk_id).Nodup)
    (hrv : rv ∈ v) (hid : rv.chunk_id = id) :
    dictGet (rrfState cfg v kl).2 id = some rv := by
  unfold rrfState
  have hvp := vectorPass_rmap_get_nodup cfg.vector_weight (cfg.rrf_k : ℚ) v 0
    [] [] rv id hnd hrv hid
  rw [keywordPass_rmap_get_of_isSome _ _ _ _ _ _ _ (by rw [hvp]; rfl), hvp]

/-! ## Helper lemmas: contributions of a uniquely-placed candidate -/

theorem contrib_single (w kq : ℚ) (l₁ l₂ : List SearchResult) (rv : SearchResult)
    (id : ℕ) (hid : rv.chunk_id = id) (h1 : id ∉ l₁.map SearchResult.chunk_id)
    (h2 : id ∉ l₂.map SearchResult.chunk_id) (n : ℕ) :
    contrib w kq id (l₁ ++ rv :: l₂) n =
      w * (1 / (kq + (n : ℚ) + (l₁.length : ℚ) + 1)) := by
  rw [contrib_append, contrib_of_not_mem _ _ _ _ _ h1, zero_add]
  have hcons : contrib w kq id (rv :: l₂) (n + l₁.length) =
      (if rv.chunk_id = id then
        w * (1 / (kq + ((n + l₁.length : ℕ) : ℚ) + 1)) else 0) +
        contrib w kq id l₂ (n + l₁.length + 1) := rfl
  rw [hcons, if_pos hid, contrib_of_not_mem _ _ _ _ _ h2, add_zero]
  push_cast
  ring_nf

theorem contrib_both_none (w kq : ℚ) (l₁ l₂ : List SearchResult) (id : ℕ)
    (h1 : id ∉ l₁.map SearchResult.chunk_id)
    (h2 : id ∉ l₂.map SearchResult.chunk_id) (n : ℕ) :
    contrib w kq id (l₁ ++ l₂) n = 0 := by
  rw [contrib_append, contrib_of_not_mem _ _ _ _ _ h1,
    contrib_of_not_mem _ _ _ _ _ h2, add_zero]

/-! ## Helper lemmas: properties of the fused output list -/

theorem rrf_merge_sorted (cfg : RetrievalConfig) (v kl : List SearchResult)
    (tk : ℕ) :
    (rrf_merge cfg v kl tk).Pairwise (fun a b => b.score ≤ a.score) := by
  simp only [rrf_merge]
  apply pairwise_filterMap_of _
    (fun a b => dictGetD (rrfState cfg v kl).1 b 0 ≤ dictGetD (rrfState cfg v kl).1 a 0)
  · exact (sortDescBy_pairwise _ _).sublist (List.take_sublist _ _)
  · intro a b x y hab hfa hfb
    cases hga : dictGet (rrfState cfg v kl).2 a with
    | none => rw [hga] at hfa; cases hfa
    | some ra =>
      cases hgb : dictGet (rrfState cfg v kl).2 b with
      | none => rw [hgb] at hfb; cases hfb
      | some rb =>
        rw [hga] at hfa
        rw [hgb] at hfb
        have hxa := Option.some.inj hfa
        have hyb := Option.some.inj hfb
        rw [← hxa, ← hyb]
        exact hab

theorem rrf_merge_length (cfg : RetrievalConfig) (v kl : List SearchResult)
    (tk : ℕ) :
    (rrf_merge cfg v kl tk).length =
      min tk ((v.map SearchResult.chunk_id ++
        kl.map SearchResult.chunk_id).dedup.length) := by
  simp only [rrf_merge]
  rw [length_filterMap_of_isSome]
  · rw [List.length_take, (sortDescBy_perm _ _).length_eq]
    congr 1
    have hperm : List.Perm (dictKeys (rrfState cfg v kl).1)
        ((v.map SearchResult.chunk_id ++ kl.map SearchResult.chunk_id).dedup) :=
      (List.perm_ext_iff_of_nodup (rrfState_keys_nodup cfg v kl)
        (List.nodup_dedup _)).mpr
        (fun a => by rw [List.mem_dedup, List.mem_append, rrfState_keys_mem])
    exact hperm.length_eq
  · intro id hid
    have hmem : id ∈ dictKeys (rrfState cfg v kl).1 :=
      (sortDescBy_perm _ _).mem_iff.mp (List.mem_of_mem_take hid)
    have hrm := rrfState_scores_in_rmap cfg v kl id hmem
    unfold dictMem at hrm
    rw [Option.isSome_map']
    exact hrm

/-! ## Helper lemmas: properties of reranking -/

theorem rerank_mem_origin (cfg : RetrievalConfig) (model : String → String → ℚ)
    (query : String) (results : List SearchResult) (tk : Option ℕ)
    (r' : SearchResult) (h : r' ∈ rerank cfg model query results tk) :
    ∃ r, r ∈ results ∧ r' = { r with score := model query r.content } := by
  simp only [rerank] at h
  split at h
  · cases h
  · obtain ⟨p, hp, hpr⟩ := List.mem_map.mp h
    have hp2 := List.mem_of_mem_take hp
    have hp3 := (sortDescBy_perm Prod.snd _).mem_iff.mp hp2
    obtain ⟨r, hr, hpr2⟩ := List.mem_map.mp hp3
    refine ⟨r, hr, ?_⟩
    rw [← hpr, ← hpr2]

theorem rerank_length_le (cfg : RetrievalConfig) (model : String → String → ℚ)
    (query : String) (results : List SearchResult) (tk : Option ℕ) :
    (rerank cfg model query results tk).length ≤ truthyOr tk cfg.final_top_k := by
  simp only [rerank]
  split
  · simp
  · rw [List.length_map]
    exact List.length_take_le _ _

theorem rerank_sorted (cfg : RetrievalConfig) (model : String → String → ℚ)
    (query : String) (results : List SearchResult) (tk : Option ℕ) :
    (rerank cfg model query results tk).Pairwise (fun a b => b.score ≤ a.score) := by
  simp only [rerank]
  split
  · simp
  · rw [List.pairwise_map]
    exact ((sortDescBy_pairwise Prod.snd _).sublist
      (List.take_sublist _ _)).imp (fun hab => hab)

theorem rerank_nil (cfg : RetrievalConfig) (model : String → String → ℚ)
    (query : String) (tk : Option ℕ) : rerank cfg model query [] tk = [] := by
  simp [rerank]

/-! ## Claim theorems -/

/-- C1 (amended): a candidate present exactly once in the vector list at
1-indexed rank `v₁.length + 1` and absent from the keyword list gets fused
score exactly `w_v / (k + rank)`; symmetrically for keyword-only; a
candidate present exactly once in each list gets the sum of both
contributions; and — provided both weights are strictly positive — the
dual-presence score strictly exceeds the score of the otherwise-identical
candidate with one of its two occurrences removed.  (The positivity
proviso is the amendment: with a zero weight the "exceeds" clause of the
original claim fails, see the counterexample.) -/
theorem c1_rrf_rank_formula :
    (∀ (cfg : RetrievalConfig) (v₁ v₂ kl : List SearchResult)
      (rv : SearchResult) (id : ℕ),
      rv.chunk_id = id →
      id ∉ v₁.map SearchResult.chunk_id → id ∉ v₂.map SearchResult.chunk_id →
      id ∉ kl.map SearchResult.chunk_id →
      rrfScore cfg (v₁ ++ rv :: v₂) kl id =
        cfg.vector_weight / ((cfg.rrf_k : ℚ) + (v₁.length : ℚ) + 1)) ∧
    (∀ (cfg : RetrievalConfig) (v kl₁ kl₂ : List SearchResult)
      (rk : SearchResult) (id : ℕ),
      rk.chunk_id = id →
      id ∉ v.map SearchResult.chunk_id →
      id ∉ kl₁.map SearchResult.chunk_id → id ∉ kl₂.map SearchResult.chunk_id →
      rrfScore cfg v (kl₁ ++ rk :: kl₂) id =
        cfg.keyword_weight / ((cfg.rrf_k : ℚ) + (kl₁.length : ℚ) + 1)) ∧
    (∀ (cfg : RetrievalConfig) (v₁ v₂ kl₁ kl₂ : List SearchResult)
      (rv rk : SearchResult) (id : ℕ),
      rv.chunk_id = id → rk.chunk_id = id →
      id ∉ v₁.map SearchResult.chunk_id → id ∉ v₂.map SearchResult.chunk_id →
      id ∉ kl₁.map SearchResult.chunk_id → id ∉ kl₂.map SearchResult.chunk_id →
      rrfScore cfg (v₁ ++ rv :: v₂) (kl₁ ++ rk :: kl₂) id =
        cfg.vector_weight / ((cfg.rrf_k : ℚ) + (v₁.length : ℚ) + 1) +
          cfg.keyword_weight / ((cfg.rrf_k : ℚ) + (kl₁.length : ℚ) + 1)) ∧
    (∀ (cfg : RetrievalConfig) (v₁ v₂ kl₁ kl₂ : List SearchResult)
      (rv rk : SearchResult) (id : ℕ),
      rv.chunk_id = id → rk.chunk_id = id →
      id ∉ v₁.map SearchResult.chunk_id → id ∉ v₂.map SearchResult.chunk_id →
      id ∉ kl₁.map SearchResult.chunk_id → id ∉ kl₂.map SearchResult.chunk_id →
      0 < cfg.vector_weight → 0 < cfg.keyword_weight →
      rrfScore cfg (v₁ ++ rv :: v₂) (kl₁ ++ kl₂) id <
          rrfScore cfg (v₁ ++ rv :: v₂) (kl₁ ++ rk :: kl₂) id ∧
        rrfScore cfg (v₁ ++ v₂) (kl₁ ++ rk :: kl₂) id <
          rrfScore cfg (v₁ ++ rv :: v₂) (kl₁ ++ rk :: kl₂) id) := by
  refine ⟨?_, ?_, ?_, ?_⟩
  · intro cfg v₁ v₂ kl rv id hid h1 h2 h3
    rw [rrfScore_eq, contrib_single _ _ _ _ _ _ hid h1 h2 0,
      contrib_of_not_mem _ _ _ _ _ h3]
    push_cast
    ring
  · intro cfg v kl₁ kl₂ rk id hid h1 h2 h3
    rw [rrfScore_eq, contrib_single _ _ _ _ _ _ hid h2 h3 0,
      contrib_of_not_mem _ _ _ _ _ h1]
    push_cast
    ring
  · intro cfg v₁ v₂ kl₁ kl₂ rv rk id hv hk h1 h2 h3 h4
    rw [rrfScore_eq, contrib_single _ _ _ _ _ _ hv h1 h2 0,
      contrib_single _ _ _ _ _ _ hk h3 h4 0]
    push_cast
    ring
  · intro cfg v₁ v₂ kl₁ kl₂ rv rk id hv hk h1 h2 h3 h4 hwv hwk
    have hkq : (0 : ℚ) ≤ (cfg.rrf_k : ℚ) := Nat.cast_nonneg _
    constructor
    · rw [rrfScore_eq, rrfScore_eq, contrib_single _ _ _ _ _ _ hv h1 h2 0,
        contrib_both_none _ _ _ _ _ h3 h4 0,
        contrib_single _ _ _ _ _ _ hk h3 h4 0]
      have hfrac : 0 < 1 / ((cfg.rrf_k : ℚ) + ((0 : ℕ) : ℚ) + (kl₁.length : ℚ) + 1) := by
        positivity
      have hterm := mul_pos hwk hfrac
      linarith
    · rw [rrfScore_eq, rrfScore_eq, contrib_single _ _ _ _ _ _ hk h3 h4 0,
        contrib_both_none _ _ _ _ _ h1 h2 0,
        contrib_single _ _ _ _ _ _ hv h1 h2 0]
      have hfrac : 0 < 1 / ((cfg.rrf_k : ℚ) + ((0 : ℕ) : ℚ) + (v₁.length : ℚ) + 1) := by
        positivity
      have hterm := mul_pos hwv hfrac
      linarith

/-- C1 witness: concrete instances of all four parts of
`c1_rrf_rank_formula` on the spec's scenario records under the default
configuration (weights 0.6 / 0.4, `rrf_k = 60`). -/
theorem c1_rrf_rank_formula_witness :
    rrfScore defaultRetrievalConfig [resA] [] 1 = (6 / 10) / 61 ∧
    rrfScore defaultRetrievalConfig [] [resBk, resC] 3 = (4 / 10) / 62 ∧
    rrfScore defaultRetrievalConfig [resA, resBv] [resBk, resC] 2 =
      (6 / 10) / 62 + (4 / 10) / 61 ∧
    rrfScore defaultRetrievalConfig [resA, resBv] [resC] 2 <
      rrfScore defaultRetrievalConfig [resA, resBv] [resBk, resC] 2 := by
  refine ⟨?_, ?_, ?_, ?_⟩
  · have h := c1_rrf_rank_formula.1 defaultRetrievalConfig [] [] [] resA 1
      rfl (by decide) (by decide) (by decide)
    simp only [List.nil_append, List.cons_append] at h
    rw [h]
    norm_num [defaultRetrievalConfig]
  · have h := c1_rrf_rank_formula.2.1 defaultRetrievalConfig [] [resBk] [] resC 3
      rfl (by decide) (by decide) (by decide)
    simp only [List.nil_append, List.cons_append] at h
    rw [h]
    norm_num [defaultRetrievalConfig]
  · have h := c1_rrf_rank_formula.2.2.1 defaultRetrievalConfig [resA] [] []
      [resC] resBv resBk 2 rfl rfl (by decide) (by decide) (by decide) (by decide)
    simp only [List.nil_append, List.cons_append] at h
    rw [h]
    norm_num [defaultRetrievalConfig]
  · exact (c1_rrf_rank_formula.2.2.2 defaultRetrievalConfig [resA] [] [] [resC]
      resBv resBk 2 rfl rfl (by decide) (by decide) (by decide) (by decide)
      (by norm_num [defaultRetrievalConfig]) (by norm_num [defaultRetrievalConfig])).1

/-- C1 counterexample: with the admissible weight pair `(1, 0)` a
candidate present in both lists (rank 1 in each) does NOT strictly exceed
the otherwise-identical candidate present only in the vector list — both
fused scores are `1/61` — refuting the claim's unconditional "exceeds". -/
theorem c1_zero_weight_counterexample :
    ¬ (rrfScore cfgZeroKw [resA] [] 1 < rrfScore cfgZeroKw [resA] [resA] 1) := by
  have h1 : rrfScore cfgZeroKw [resA] [] 1 = 1 / 61 := by
    rw [rrfScore_eq]
    norm_num [contrib, resA, mkResult, cfgZeroKw, defaultRetrievalConfig]
  have h2 : rrfScore cfgZeroKw [resA] [resA] 1 = 1 / 61 := by
    rw [rrfScore_eq]
    norm_num [contrib, resA, mkResult, cfgZeroKw, defaultRetrievalConfig]
  rw [h1, h2]
  exact lt_irrefl _

/-- C2 (confirmed): the fused output of `_rrf_merge` is sorted by
descending fused score, its length is exactly `min top_k (number of
distinct chunk ids across the two lists)`, and the spec scenario (vector
`[A(.9), B(.8)]`, keyword `[B(5), C(3)]`, weights 0.6/0.4, k = 60) fuses
to the order B, A, C. -/
theorem c2_fusion_sorted_truncated :
    (∀ (cfg : RetrievalConfig) (v kl : List SearchResult) (tk : ℕ),
      (rrf_merge cfg v kl tk).Pairwise (fun a b => b.score ≤ a.score)) ∧
    (∀ (cfg : RetrievalConfig) (v kl : List SearchResult) (tk : ℕ),
      (rrf_merge cfg v kl tk).length =
        min tk ((v.map SearchResult.chunk_id ++
          kl.map SearchResult.chunk_id).dedup.length)) ∧
    (rrf_merge defaultRetrievalConfig [resA, resBv] [resBk, resC] 10).map
      SearchResult.chunk_id = [2, 1, 3] := by
  refine ⟨rrf_merge_sorted, rrf_merge_length, ?_⟩
  norm_num [rrf_merge, rrfState, vectorPass, keywordPass, dictSet, dictGet,
    dictGetD, dictMem, dictKeys, sortDescBy, insertDescBy, resA, resBv, resBk,
    resC, mkResult, defaultRetrievalConfig]
  simp [List.filterMap_cons]

/-- C3 (amended): `embed` on an empty list returns an empty list without
consulting the provider; persistent generic errors back off with delays
1.0 then 2.0 and degrade to one zero-vector per input text after the 3rd
attempt; persistent rate-limit errors take the same backoff on the first
two attempts but RE-RAISE on the 3rd attempt instead of degrading.  (The
re-raise is the amendment: the original claim's "rate-limit errors take
the same backoff-and-degrade path" and "never an exception" fail, see the
counterexample.) -/
theorem c3_embed_degradation :
    (∀ outcomes : ℕ → EmbedOutcome, embed [] outcomes = (Except.ok [], [])) ∧
    (∀ texts : List String, texts ≠ [] →
      embed texts allGeneric = (Except.ok (fallbackEmbeddings texts), [1, 2])) ∧
    (∀ texts : List String, texts ≠ [] →
      embed texts allRateLimit = (Except.error (), [1, 2])) := by
  refine ⟨?_, ?_, ?_⟩
  · intro outcomes
    simp [embed]
  · intro texts h
    rw [embed, if_neg h]
    norm_num [embedLoop, allGeneric, maxRetries]
  · intro texts h
    rw [embed, if_neg h]
    norm_num [embedLoop, allRateLimit, maxRetries]

/-- C3 witness: the three parts of `c3_embed_degradation` at concrete
inputs — in particular `embed(["a","b"])` under persistent generic errors
yields exactly two 1536-dimensional zero-vectors. -/
theorem c3_embed_degradation_witness :
    embed [] allRateLimit = (Except.ok [], []) ∧
    embed ["a", "b"] allGeneric =
      (Except.ok [List.replicate 1536 0, List.replicate 1536 0], [1, 2]) ∧
    embed ["a", "b"] allRateLimit = (Except.error (), [1, 2]) :=
  ⟨c3_embed_degradation.1 allRateLimit,
   c3_embed_degradation.2.1 ["a", "b"] (by decide),
   c3_embed_degradation.2.2 ["a", "b"] (by decide)⟩

/-- C3 counterexample: after 3 failed rate-limited attempts
`embed(["a","b"])` raises (`Except.error`), refuting the claim that it
returns two zero-vectors and never an exception. -/
theorem c3_ratelimit_counterexample :
    (embed ["a", "b"] allRateLimit).1 = Except.error () := rfl

/-- C4 (confirmed): `Reranker.rerank` returns at most the resolved
`top_k` (default `final_top_k`) records, every returned record is a
rebuilt input record whose score is the cross-encoder output for
`(query, content)`, the output is sorted by descending model score, and
empty input yields empty output for every model (so no model call can
influence it). -/
theorem c4_rerank_contract (cfg : RetrievalConfig) (model : String → String → ℚ)
    (query : String) (results : List SearchResult) (tk : Option ℕ) :
    (rerank cfg model query results tk).length ≤ truthyOr tk cfg.final_top_k ∧
    (∀ r' ∈ rerank cfg model query results tk,
      ∃ r, r ∈ results ∧ r' = { r with score := model query r.content }) ∧
    (rerank cfg model query results tk).Pairwise (fun a b => b.score ≤ a.score) ∧
    rerank cfg model query [] tk = [] :=
  ⟨rerank_length_le cfg model query results tk,
   fun r' h => rerank_mem_origin cfg model query results tk r' h,
   rerank_sorted cfg model query results tk,
   rerank_nil cfg model query tk⟩

/-- C4 witness: `c4_rerank_contract` at a concrete rerank of two records
down to `top_k = 1`, discharging the membership hypothesis on the single
output record. -/
theorem c4_rerank_contract_witness :
    (rerank defaultRetrievalConfig lenModel "q" [resA, resC] (some 1)).length ≤ 1 ∧
    (∃ r, r ∈ [resA, resC] ∧
      resAreranked = { r with score := lenModel "q" r.content }) ∧
    rerank defaultRetrievalConfig lenModel "q" [] (some 1) = [] := by
  have h := c4_rerank_contract defaultRetrievalConfig lenModel "q" [resA, resC]
    (some 1)
  exact ⟨h.1, h.2.1 resAreranked (by decide), h.2.2.2⟩

/-- C5 (amended): `vector` / `keyword` mode runs only that source at the
resolved `top_k` (`final_top_k` when the caller passes none), with no
fusion; `hybrid` mode fetches BOTH sources at `initial_top_k`
unconditionally — also when `use_reranking` is false — and fuses to the
resolved `top_k`; the pipeline with reranking disabled truncates the
search output to the resolved `top_k`.  (The unconditional `initial_top_k`
fetch depth is the amendment: the original claim's "at `final_top_k` when
`use_reranking` is false" fails, see the counterexample.) -/
theorem c5_search_dispatch :
    (∀ (cfg : RetrievalConfig) (vec kw : ℕ → List SearchResult),
      cfg.search_type = SearchType.vector →
      search cfg vec kw none = vec cfg.final_top_k) ∧
    (∀ (cfg : RetrievalConfig) (vec kw : ℕ → List SearchResult),
      cfg.search_type = SearchType.keyword →
      search cfg vec kw none = kw cfg.final_top_k) ∧
    (∀ (cfg : RetrievalConfig) (vec kw : ℕ → List SearchResult) (tk : Option ℕ),
      cfg.search_type = SearchType.hybrid →
      search cfg vec kw tk =
        rrf_merge cfg (vec cfg.initial_top_k) (kw cfg.initial_top_k)
          (truthyOr tk cfg.final_top_k)) ∧
    (∀ (cfg : RetrievalConfig) (vec kw : ℕ → List SearchResult)
      (model : String → String → ℚ) (query : String) (tk : Option ℕ),
      cfg.use_reranking = false →
      retrieve cfg vec kw model query tk =
        (search cfg vec kw (some (truthyOr tk cfg.final_top_k))).take
          (truthyOr tk cfg.final_top_k)) := by
  refine ⟨?_, ?_, ?_, ?_⟩
  · intro cfg vec kw h
    simp [search, h, truthyOr]
  · intro cfg vec kw h
    simp [search, h, truthyOr]
  · intro cfg vec kw tk h
    simp [search, h]
  · intro cfg vec kw model query tk h
    by_cases hi : search cfg vec kw (some (truthyOr tk cfg.final_top_k)) = []
    · simp [retrieve, h, hi]
    · simp [retrieve, h, hi]

/-- C5 witness: the four parts of `c5_search_dispatch` at concrete
configurations (vector-only, keyword-only, default hybrid, and hybrid
with reranking disabled). -/
theorem c5_search_dispatch_witness :
    search cfgVec vecProbe kwProbe none = vecProbe 10 ∧
    search cfgKw vecProbe kwProbe none = kwProbe 10 ∧
    search defaultRetrievalConfig vecProbe kwProbe none =
      rrf_merge defaultRetrievalConfig (vecProbe 50) (kwProbe 50) 10 ∧
    retrieve cfgNoRerank vecProbe kwProbe lenModel "q" none =
      (search cfgNoRerank vecProbe kwProbe (some 10)).take 10 :=
  ⟨c5_search_dispatch.1 cfgVec vecProbe kwProbe rfl,
   c5_search_dispatch.2.1 cfgKw vecProbe kwProbe rfl,
   c5_search_dispatch.2.2.1 defaultRetrievalConfig vecProbe kwProbe none rfl,
   c5_search_dispatch.2.2.2 cfgNoRerank vecProbe kwProbe lenModel "q" none rfl⟩

/-- C5 counterexample: with `use_reranking = false` and hybrid mode, the
sources are still fetched at `initial_top_k` (= 50), not at `final_top_k`
(= 10): against a vector source that only has a candidate when fetched at
depth 50, `search` returns one fused record whereas the claim's
`final_top_k` fetch depth would return none. -/
theorem c5_fetch_depth_counterexample :
    search cfgNoRerank vecProbe kwProbe none ≠
      rrf_merge cfgNoRerank (vecProbe cfgNoRerank.final_top_k)
        (kwProbe cfgNoRerank.final_top_k)
        (truthyOr none cfgNoRerank.final_top_k) := by
  intro heq
  have hL : search cfgNoRerank vecProbe kwProbe none =
      rrf_merge cfgNoRerank [resA] [] 10 := rfl
  have hR : rrf_merge cfgNoRerank (vecProbe cfgNoRerank.final_top_k)
      (kwProbe cfgNoRerank.final_top_k)
      (truthyOr none cfgNoRerank.final_top_k) =
      rrf_merge cfgNoRerank [] [] 10 := rfl
  have h1 : (rrf_merge cfgNoRerank [resA] [] 10).length = 1 := by
    rw [rrf_merge_length]
    decide
  have h2 : (rrf_merge cfgNoRerank [] [] 10).length = 0 := by
    rw [rrf_merge_length]
    decide
  rw [hL, hR] at heq
  rw [heq, h2] at h1
  exact absurd h1 (by decide)

/-- C6 (confirmed): a candidate present in both lists is emitted by
`_rrf_merge` as the vector-search record (content, contextual prefix,
page bounds, section hint, source metadata all taken from the vector
record), with only the score replaced by the fused RRF value and
`search_type` set to hybrid. -/
theorem c6_vector_record_preferred (cfg : RetrievalConfig)
    (v kl : List SearchResult) (tk : ℕ) (r rv : SearchResult)
    (hmem : r ∈ rrf_merge cfg v kl tk)
    (hnd : (v.map SearchResult.chunk_id).Nodup)
    (hrv : rv ∈ v) (hcid : rv.chunk_id = r.chunk_id)
    (_hkw : r.chunk_id ∈ kl.map SearchResult.chunk_id) :
    r = { rv with
          score := rrfScore cfg v kl r.chunk_id,
          search_type := SearchType.hybrid } := by
  simp only [rrf_merge] at hmem
  obtain ⟨id, hidmem, hsome⟩ := List.mem_filterMap.mp hmem
  cases hrec : dictGet (rrfState cfg v kl).2 id with
  | none =>
    rw [hrec] at hsome
    cases hsome
  | some rec =>
    rw [hrec] at hsome
    simp only [Option.map_some'] at hsome
    have hr := Option.some.inj hsome
    have hrc : rec.chunk_id = id := rrfState_rmap_key cfg v kl id rec hrec
    have hrid : r.chunk_id = id := by
      rw [← hr]
      exact hrc
    have hget : dictGet (rrfState cfg v kl).2 id = some rv :=
      rrfState_rmap_get_vector cfg v kl rv id hnd hrv (by rw [hcid, hrid])
    rw [hrec] at hget
    have hrv2 : rec = rv := Option.some.inj hget
    rw [hrid, ← hr, hrv2]
    rfl

/-- C6 witness: `c6_vector_record_preferred` on the spec scenario — the
fused record for B carries the vector-list record's fields with the fused
score and hybrid provenance. -/
theorem c6_vector_record_preferred_witness :
    resBfused = { resBv with
      score := rrfScore defaultRetrievalConfig [resA, resBv] [resBk, resC] resBfused.chunk_id,
      search_type := SearchType.hybrid } := by
  have hout : rrf_merge defaultRetrievalConfig [resA, resBv] [resBk, resC] 10 =
      [resBfused, resAfused, resCfused] := by
    norm_num [rrf_merge, rrfState, vectorPass, keywordPass, dictSet, dictGet,
      dictGetD, dictMem, dictKeys, sortDescBy, insertDescBy, resA, resBv, resBk,
      resC, mkResult, defaultRetrievalConfig, resBfused, resAfused, resCfused]
    simp [List.filterMap_cons]
  exact c6_vector_record_preferred defaultRetrievalConfig [resA, resBv]
    [resBk, resC] 10 resBfused resBv (by rw [hout]; simp)
    (by decide)
    (List.mem_cons_of_mem _ (List.mem_cons_self _ _))
    rfl
    (by decide)

/-- C7 (amended): pydantic construction of `RetrievalConfig` enforces only
the per-field bounds (`0 ≤ weight ≤ 1`, `1 ≤ rrf_k ≤ 100`,
`1 ≤ initial_top_k ≤ 200`, `1 ≤ final_top_k ≤ 50`): any field values
within those bounds are accepted, regardless of `use_reranking` and of
whether `final_top_k > initial_top_k`, so such configurations do reach
the runtime path.  (The original claim said construction fails; see the
counterexample.) -/
theorem c7_config_bounds_only (st : SearchType) (vw kw : ℚ)
    (krrf itk ftk : ℕ) (ur : Bool) (rm : String) (uqe : Bool)
    (em : Option String)
    (h1 : 0 ≤ vw) (h2 : vw ≤ 1) (h3 : 0 ≤ kw) (h4 : kw ≤ 1)
    (h5 : 1 ≤ krrf) (h6 : krrf ≤ 100) (h7 : 1 ≤ itk) (h8 : itk ≤ 200)
    (h9 : 1 ≤ ftk) (h10 : ftk ≤ 50) :
    (mkRetrievalConfig st vw kw krrf itk ftk ur rm uqe em).isSome = true := by
  unfold mkRetrievalConfig
  rw [if_pos ⟨h1, h2, h3, h4, h5, h6, h7, h8, h9, h10⟩]
  rfl

/-- C7 witness: `c7_config_bounds_only` at `initial_top_k = 5`,
`final_top_k = 50`, `use_reranking = true` — the invalid cross-field
combination is accepted. -/
theorem c7_config_bounds_only_witness :
    (mkRetrievalConfig SearchType.hybrid (6/10) (4/10) 60 5 50 true "m"
      false none).isSome = true :=
  c7_config_bounds_only SearchType.hybrid (6/10) (4/10) 60 5 50 true "m"
    false none (by norm_num) (by norm_num) (by norm_num) (by norm_num)
    (by norm_num) (by norm_num) (by norm_num) (by norm_num) (by norm_num)
    (by norm_num)

/-- C7 counterexample: constructing a `RetrievalConfig` with
`use_reranking = true`, `initial_top_k = 5` and `final_top_k = 50`
SUCCEEDS (returns the configuration), refuting the claim that such a
construction fails. -/
theorem c7_accepts_invalid_counterexample :
    mkRetrievalConfig SearchType.hybrid (6/10) (4/10) 60 5 50 true
      "ms-marco-MiniLM-L-6-v2" false none =
    some { search_type := SearchType.hybrid, vector_weight := 6/10,
           keyword_weight := 4/10, rrf_k := 60, initial_top_k := 5,
           final_top_k := 50, use_reranking := true,
           reranker_model := "ms-marco-MiniLM-L-6-v2",
           use_query_expansion := false, expansion_model := none } := by
  norm_num [mkRetrievalConfig]

/-- C8 (confirmed): fusion and reranking are deterministic — two runs of
`_rrf_merge` on equal candidate lists and equal truncation yield equal
outputs, and two runs of `rerank` whose cross-encoder scores agree on
every input pair yield equal outputs (the output depends on the model
only through its scores on the scored pairs; no randomness anywhere). -/
theorem c8_deterministic_fusion_rerank :
    (∀ (cfg : RetrievalConfig) (v₁ v₂ kl₁ kl₂ : List SearchResult)
      (t₁ t₂ : ℕ), v₁ = v₂ → kl₁ = kl₂ → t₁ = t₂ →
      rrf_merge cfg v₁ kl₁ t₁ = rrf_merge cfg v₂ kl₂ t₂) ∧
    (∀ (cfg : RetrievalConfig) (m₁ m₂ : String → String → ℚ) (query : String)
      (results : List SearchResult) (tk : Option ℕ),
      (∀ r ∈ results, m₁ query r.content = m₂ query r.content) →
      rerank cfg m₁ query results tk = rerank cfg m₂ query results tk) := by
  constructor
  · intro cfg v₁ v₂ kl₁ kl₂ t₁ t₂ hv hk ht
    rw [hv, hk, ht]
  · intro cfg m₁ m₂ query results tk h
    have hmap : (results.map fun r => (r, m₁ query r.content)) =
        results.map fun r => (r, m₂ query r.content) :=
      List.map_congr_left (fun r hr => by rw [h r hr])
    simp only [rerank, hmap]

/-- C8 witness: `c8_deterministic_fusion_rerank` applied to equal concrete
inputs, and to two syntactically different but pointwise-equal
cross-encoders. -/
theorem c8_deterministic_fusion_rerank_witness :
    rrf_merge defaultRetrievalConfig [resA] [resC] 10 =
      rrf_merge defaultRetrievalConfig [resA] [resC] 10 ∧
    rerank defaultRetrievalConfig lenModel "q" [resA] none =
      rerank defaultRetrievalConfig (fun _ c => (c.length : ℚ)) "q" [resA]
        none :=
  ⟨c8_deterministic_fusion_rerank.1 defaultRetrievalConfig [resA] [resA]
    [resC] [resC] 10 10 rfl rfl rfl,
   c8_deterministic_fusion_rerank.2 defaultRetrievalConfig lenModel
    (fun _ c => (c.length : ℚ)) "q" [resA] none (fun _ _ => rfl)⟩

/-- C9 (confirmed): when the cache misses and the `sources` table returns
no row for a `source_id`, `_get_source_info` returns the sentinel
`{"title": "Unknown", "uri": ""}` (the fields copied into the
resulting record's `source_title` / `source_uri`), leaves the cache
unchanged, and raises no error. -/
theorem c9_missing_source_sentinel (table : ℕ → List SourceInfo)
    (cache : List (ℕ × SourceInfo)) (source_id : ℕ)
    (hc : dictGet cache source_id = none) (ht : table source_id = []) :
    get_source_info table cache source_id =
      ({ title := "Unknown", uri := "" }, cache) := by
  unfold get_source_info
  rw [hc, ht]

/-- C9 witness: `c9_missing_source_sentinel` on an empty table and empty
cache. -/
theorem c9_missing_source_sentinel_witness :
    get_source_info (fun _ => []) [] 7 =
      ({ title := "Unknown", uri := "" }, []) :=
  c9_missing_source_sentinel (fun _ => []) [] 7 rfl rfl

/-- C10 (confirmed): every record kept by `Reranker.rerank` is an input
record with every field preserved (chunk id, source id, content,
contextual prefix, page bounds, section hint, source title, source uri,
and in particular `search_type`) except `score`, which is replaced by the
cross-encoder output for `(query, content)`. -/
theorem c10_rerank_frame (cfg : RetrievalConfig) (model : String → String → ℚ)
    (query : String) (results : List SearchResult) (tk : Option ℕ)
    (r' : SearchResult) (h : r' ∈ rerank cfg model query results tk) :
    ∃ r, r ∈ results ∧ r' = { r with score := model query r.content } :=
  rerank_mem_origin cfg model query results tk r' h

/-- C10 witness: `c10_rerank_frame` on the concrete rerank of
`[resA, resC]` to one record. -/
theorem c10_rerank_frame_witness :
    ∃ r, r ∈ [resA, resC] ∧
      resAreranked = { r with score := lenModel "q" r.content } :=
  c10_rerank_frame defaultRetrievalConfig lenModel "q" [resA, resC] (some 1)
    resAreranked (by decide)

end DeepResearch
